import Mathlib

/-!
Verification of `ReviewEnhancer.py`: a batch utility that augments review
records stored in `Reviews*.json` files with a derived `wordCount` field.

The Python program is shallowly embedded: JSON values decoded by `json.load`
become the inductive `JVal` (JSON numbers are modelled as integers; the word
counter only ever produces integers and no claim depends on float values),
Python dicts become association lists with Python dict semantics (lookup of
the first matching key, in-place update of an existing key, append of a new
key), fallible code returns `Except`, and the filesystem effects of one
run are modelled by explicit read/write outcome parameters.
-/

/-- A JSON value as decoded by the Python call `json.load`. -/
inductive JVal where
  | null : JVal
  | bool (b : Bool) : JVal
  | num (n : Int) : JVal
  | str (s : String) : JVal
  | arr (xs : List JVal) : JVal
  | obj (fields : List (String × JVal)) : JVal

/-- Python truthiness (`bool(v)`) restricted to JSON-decoded values:
`None`, `False`, `0`, `""`, `[]` and an empty dict are falsy. -/
def pyFalsy : JVal → Bool
  | .null => true
  | .bool b => !b
  | .num n => n == 0
  | .str s => s.isEmpty
  | .arr xs => xs.isEmpty
  | .obj fs => fs.isEmpty

/-- The whitespace characters recognised by the Python functions `str.split()`
and `str.strip()` (Unicode whitespace). -/
def pyIsSpace (c : Char) : Bool :=
  c == ' ' || c == '\t' || c == '\n' || c == '\x0d' || c == '\x0b' || c == '\x0c' ||
  c == '\x1c' || c == '\x1d' || c == '\x1e' || c == '\x1f' || c == '\u0085' ||
  c == '\u00a0' || c == '\u1680' ||
  ('\u2000' ≤ c && c ≤ '\u200a') ||
  c == '\u2028' || c == '\u2029' || c == '\u202f' || c == '\u205f' || c == '\u3000'

/-- Auxiliary scan for `str.split()` with no separator argument: `acc` holds
the characters (reversed) of the token currently being read. -/
def pySplitAux : List Char → List Char → List String
  | [], acc => if acc.isEmpty then [] else [String.mk acc.reverse]
  | c :: cs, acc =>
    if pyIsSpace c then
      if acc.isEmpty then pySplitAux cs []
      else String.mk acc.reverse :: pySplitAux cs []
    else pySplitAux cs (c :: acc)

/-- The Python call `s.split()`: split on runs of whitespace, discarding empty
tokens. -/
def pySplit (s : String) : List String :=
  pySplitAux s.toList []

/-- The Python call `s.strip()`: remove leading and trailing whitespace. -/
def pyStrip (s : String) : String :=
  String.mk (((s.toList.dropWhile pyIsSpace).reverse.dropWhile pyIsSpace).reverse)

/-- The function `calculate_word_count` (ReviewEnhancer.py lines 16-31).  The argument is
the Python value of the `text` field of the record (absent is `None`, i.e.
`.null`).  `if not text: return 0` guards falsy values; otherwise the code
calls `text.split()`, which raises `AttributeError` when `text` is a truthy
non-string; the result is the length of
`[word for word in text.split() if word.strip()]`. -/
def calculate_word_count (text : JVal) : Except String Nat :=
  if pyFalsy text then .ok 0
  else
    match text with
    | .str s => .ok (((pySplit s).filter (fun w => !(pyStrip w).isEmpty)).length)
    | _ => .error "AttributeError: object has no attribute split"

/-! ## Python dict operations

A JSON object decoded by `json.load` is a Python dict: keys are unique and
insertion-ordered.  The association-list operations below implement Python
dict semantics (and happen to be well defined on any association list). -/

/-- Lookup `d[k]` as an `Option`: the value at the first entry whose key is
`k`, or `none` when `k` is absent.  Records presence as well as value. -/
def dictFind? : List (String × JVal) → String → Option JVal
  | [], _ => none
  | (k0, v) :: rest, k => if k0 == k then some v else dictFind? rest k

/-- The Python lookup `d.get(k)`: the stored value, or `None` when the key is absent. -/
def dictGet (d : List (String × JVal)) (k : String) : JVal :=
  (dictFind? d k).getD .null

/-- The Python assignment `d[k] = v`: update the entry for `k` in place when it exists,
otherwise append the new entry at the end (insertion order). -/
def dictSet : List (String × JVal) → String → JVal → List (String × JVal)
  | [], k, v => [(k, v)]
  | (k0, v0) :: rest, k, v =>
    if k0 == k then (k, v) :: rest else (k0, v0) :: dictSet rest k v

/-- Whether a decoded value is a Python dict (`isinstance(review, dict)`). -/
def isObj : JVal → Bool
  | .obj _ => true
  | _ => false

/-! ## The per-file augmentation loop -/

/-- The loop body of `process_reviews_file` applied to one dict `review`
(ReviewEnhancer.py lines 61-66): read `review.get("text")`, compute the word
count (which may raise), and set `review["wordCount"]`. -/
def augmentReview (d : List (String × JVal)) : Except String (List (String × JVal)) :=
  match calculate_word_count (dictGet d "text") with
  | .error e => .error e
  | .ok n => .ok (dictSet d "wordCount" (.num (n : Int)))

/-- The `for review in reviews_data` loop of `process_reviews_file`
(ReviewEnhancer.py lines 55-67): non-dict elements are skipped (left in
place, not counted); each dict element gains/overwrites `wordCount` and
increments `updated_count`; an exception raised by the word counter aborts
the whole file (it is caught at the per-file boundary, so no write occurs).
Returns the transformed list together with `updated_count`. -/
def augmentData : List JVal → Except String (List JVal × Nat)
  | [] => .ok ([], 0)
  | v :: rest =>
    match v with
    | .obj d =>
      match augmentReview d with
      | .error e => .error e
      | .ok d2 =>
        match augmentData rest with
        | .error e => .error e
        | .ok (vs, c) => .ok (.obj d2 :: vs, c + 1)
    | _ =>
      match augmentData rest with
      | .error e => .error e
      | .ok (vs, c) => .ok (v :: vs, c)


/-! ## JSON re-encoding

Models `json.dump(reviews_data, f, indent=2, ensure_ascii=False)`
(ReviewEnhancer.py line 71): pretty-printed with a 2-space indent, item
separator `","` + newline + indent, key separator `": "`, non-ASCII
characters emitted literally, and no trailing newline. -/

/-- Lower-case hex digit, as used by the `\u00XX` escapes of `json`. -/
def hexDigit (n : Nat) : Char :=
  if n < 10 then Char.ofNat (48 + n) else Char.ofNat (87 + n)

/-- How `json` (with `ensure_ascii=False`) emits one character of a string:
`"` and `\` are escaped, control characters below `0x20` use the short
escapes or `\u00XX`, everything else is emitted literally. -/
def encodeChar (c : Char) : String :=
  if c == '"' then "\\\""
  else if c == '\\' then "\\\\"
  else if c == '\n' then "\\n"
  else if c == '\t' then "\\t"
  else if c == '\x0d' then "\\r"
  else if c == '\x08' then "\\b"
  else if c == '\x0c' then "\\f"
  else if c.toNat < 0x20 then
    String.mk ['\\', 'u', '0', '0', hexDigit (c.toNat / 16), hexDigit (c.toNat % 16)]
  else String.mk [c]

/-- A JSON string literal as emitted by `json` with `ensure_ascii=False`. -/
def encodeString (s : String) : String :=
  "\"" ++ String.join (s.toList.map encodeChar) ++ "\""

/-- Indentation of `ind` spaces. -/
def pad (ind : Nat) : String :=
  String.mk (List.replicate ind ' ')

mutual

/-- Serialisation of one value by `json.dump` at indentation level `ind`. -/
def encodeVal : Nat → JVal → String
  | _, .null => "null"
  | _, .bool true => "true"
  | _, .bool false => "false"
  | _, .num n => toString n
  | _, .str s => encodeString s
  | _, .arr [] => "[]"
  | ind, .arr (x :: xs) =>
      "[\n" ++ encodeItems (ind + 2) x xs ++ "\n" ++ pad ind ++ "]"
  | _, .obj [] => "\x7b\x7d"
  | ind, .obj (f :: fs) =>
      "\x7b\n" ++ encodeFields (ind + 2) f fs ++ "\n" ++ pad ind ++ "\x7d"
termination_by _ v => sizeOf v
decreasing_by all_goals simp_wf <;> omega

/-- The comma-and-newline separated items of a non-empty array. -/
def encodeItems : Nat → JVal → List JVal → String
  | ind, x, [] => pad ind ++ encodeVal ind x
  | ind, x, y :: ys => pad ind ++ encodeVal ind x ++ ",\n" ++ encodeItems ind y ys
termination_by _ x xs => sizeOf x + sizeOf xs
decreasing_by all_goals simp_wf <;> omega

/-- The comma-and-newline separated `"key": value` fields of a non-empty
object. -/
def encodeFields : Nat → (String × JVal) → List (String × JVal) → String
  | ind, (k, v), [] => pad ind ++ encodeString k ++ ": " ++ encodeVal ind v
  | ind, (k, v), f :: fs =>
      pad ind ++ encodeString k ++ ": " ++ encodeVal ind v ++ ",\n" ++ encodeFields ind f fs
termination_by _ f fs => sizeOf f + sizeOf fs
decreasing_by all_goals simp_wf <;> omega

end

/-- The full file content written by `json.dump(v, f, indent=2,
ensure_ascii=False)`. -/
def encodeJson (v : JVal) : String :=
  encodeVal 0 v

/-- The prefix of `s` consisting of its first `k` characters (used to model
the partial content left on disk when a streamed write fails mid-way). -/
def strTake (s : String) (k : Nat) : String :=
  String.mk (s.toList.take k)

/-! ## File location -/

/-- Whether a file name matches the glob pattern `Reviews*.json`
(case-sensitive, as `glob.glob` is on a case-sensitive filesystem). -/
def matchesReviewsPattern (name : String) : Bool :=
  "Reviews".toList.isPrefixOf name.toList && ".json".toList.isSuffixOf name.toList

/-- The function `find_reviews_files` (ReviewEnhancer.py lines 87-99).  `listing` is the
set of names directly inside `directory` (`none` when the directory does not
exist, in which case `glob.glob` returns an empty list).  The code globs
`os.path.join(directory, "Reviews*.json")` and returns `sorted(files)`;
Python `sorted` on strings is modelled by insertion sort under the
lexicographic order (both are stable, so they agree). -/
def find_reviews_files (listing : Option (List String)) (directory : String) : List String :=
  match listing with
  | none => []
  | some names =>
    List.insertionSort (· ≤ ·)
      ((names.filter matchesReviewsPattern).map (fun n => directory ++ "/" ++ n))

/-! ## Per-file processing -/

/-- The outcome of `open(file_path, "r")` followed by `json.load(f)`:
an `IOError` while reading, a `json.JSONDecodeError` (or other decode
failure) for malformed content, or a decoded value. -/
inductive ReadOutcome where
  | ioError (e : String) : ReadOutcome
  | decodeError (e : String) : ReadOutcome
  | ok (v : JVal) : ReadOutcome

/-- The behaviour of the environment during
`open(file_path, "w")` + `json.dump`: the open may fail (file untouched),
or the write may fail after some prefix of the serialisation has reached
the disk (`open(..., "w")` truncates at once and `json.dump` streams the
encoding incrementally, so a mid-write `IOError` leaves a truncated
partial file), or everything succeeds. -/
inductive WriteOutcome where
  | ok : WriteOutcome
  | openFail (e : String) : WriteOutcome
  | failAfter (k : Nat) : WriteOutcome

/-- The observable result of `process_reviews_file` on one file: the
returned boolean, the content of the file on disk after the call, whether
the file was opened for writing, and the updated-review count reported on
success (`none` when no success line is printed). -/
structure ProcResult where
  success : Bool
  content : String
  wrote : Bool
  updated : Option Nat

/-- The function `process_reviews_file` (ReviewEnhancer.py lines 34-84) as a transition
on the on-disk content of one file.  `file` is the content before the call, `r`
the read/decode outcome and `w` the write outcome chosen by the
environment.  Every exception (`json.JSONDecodeError`, `IOError`, anything
else — e.g. the `AttributeError` a truthy non-string `text` causes) is
caught and turned into `False`. -/
def process_reviews_file (file : String) (r : ReadOutcome) (w : WriteOutcome) : ProcResult :=
  match r with
  | .ioError _ => ⟨false, file, false, none⟩
  | .decodeError _ => ⟨false, file, false, none⟩
  | .ok v =>
    match v with
    | .arr xs =>
      match augmentData xs with
      | .error _ => ⟨false, file, false, none⟩
      | .ok (ys, c) =>
        match w with
        | .ok => ⟨true, encodeJson (.arr ys), true, some c⟩
        | .openFail _ => ⟨false, file, false, none⟩
        | .failAfter k => ⟨false, strTake (encodeJson (.arr ys)) k, true, none⟩
    | _ => ⟨false, file, false, none⟩

/-! ## The run driver -/

/-- One printed line of the driver, abstracted as an event. -/
inductive Msg where
  | noFilesFound (directory : String) : Msg
  | foundFiles (n : Nat) (files : List String) : Msg
  | fileResult (path : String) (success : Bool) : Msg
  | finalTally (successes total : Nat) : Msg

/-- The environment of one run: the listing of the target directory and,
per path, the file content and the read and write outcomes. -/
structure RunEnv where
  listing : Option (List String)
  fileContent : String → String
  readOutcome : String → ReadOutcome
  writeOutcome : String → WriteOutcome

/-- The result of one run: the process exit code, the printed lines, the
success tally, the number of files attempted, and how many files were
opened for writing. -/
structure RunResult where
  exitCode : Nat
  msgs : List Msg
  successes : Nat
  total : Nat
  writes : Nat

/-- The `for file_path in review_files` loop of `main`
(ReviewEnhancer.py lines 122-125): process each file in order,
accumulating the success count (and, for the model, the per-file report
lines and the number of files opened for writing). -/
def processAll (env : RunEnv) : List String → List Msg × Nat × Nat
  | [] => ([], 0, 0)
  | p :: rest =>
    let pr := process_reviews_file (env.fileContent p) (env.readOutcome p) (env.writeOutcome p)
    let (ms, s, w) := processAll env rest
    (Msg.fileResult p pr.success :: ms,
     (if pr.success then 1 else 0) + s,
     (if pr.wrote then 1 else 0) + w)

/-- The function `main` (ReviewEnhancer.py lines 102-127).  The directory is the first
command-line argument, defaulting to `"data"`.  `main` never calls
`sys.exit` and every per-file failure is contained inside
`process_reviews_file`, so the process always terminates normally with
exit code 0. -/
def mainFn (argv : List String) (env : RunEnv) : RunResult :=
  let directory := match argv with | a :: _ => a | [] => "data"
  let files := find_reviews_files env.listing directory
  if files.isEmpty then
    ⟨0, [Msg.noFilesFound directory], 0, 0, 0⟩
  else
    let r := processAll env files
    ⟨0, Msg.foundFiles files.length files :: r.1 ++ [Msg.finalTally r.2.1 files.length],
     r.2.1, files.length, r.2.2⟩

/-! ## Auxiliary concrete environment for the run driver -/

/-- An environment with one matching file whose content is `"[ ]"` and
decodes to the empty array, with no I/O faults. -/
def envZero : RunEnv :=
  ⟨some ["Reviews1.json"], fun _ => "[ ]", fun _ => .ok (.arr []), fun _ => .ok⟩

/-- An environment whose directory does not exist. -/
def envNoDir : RunEnv :=
  ⟨none, fun _ => "", fun _ => .ioError "missing", fun _ => .ok⟩

/-! ## Lemmas about the word counter -/

/-- Every token produced by the split scan is non-empty and free of
whitespace characters, provided the partial token `acc` is. -/
theorem pySplitAux_tokens (cs : List Char) : ∀ acc : List Char,
    (∀ c ∈ acc, pyIsSpace c = false) →
    ∀ w ∈ pySplitAux cs acc, w.toList ≠ [] ∧ ∀ c ∈ w.toList, pyIsSpace c = false := by
  induction cs with
  | nil =>
    intro acc hacc w hw
    by_cases he : acc.isEmpty = true
    · simp [pySplitAux, he] at hw
    · rw [Bool.not_eq_true] at he
      simp [pySplitAux, he] at hw
      subst hw
      refine ⟨?_, ?_⟩
      · simp only [String.toList]
        intro h
        rw [List.reverse_eq_nil_iff] at h
        subst h
        simp at he
      · intro c hc
        simp only [String.toList] at hc
        exact hacc c (List.mem_reverse.mp hc)
  | cons c cs ih =>
    intro acc hacc w hw
    by_cases hsp : pyIsSpace c = true
    · by_cases he : acc.isEmpty = true
      · simp [pySplitAux, hsp, he] at hw
        exact ih [] (by simp) w hw
      · rw [Bool.not_eq_true] at he
        simp [pySplitAux, hsp, he] at hw
        rcases hw with hw | hw
        · subst hw
          refine ⟨?_, ?_⟩
          · simp only [String.toList]
            intro h
            rw [List.reverse_eq_nil_iff] at h
            subst h
            simp at he
          · intro c2 hc2
            simp only [String.toList] at hc2
            exact hacc c2 (List.mem_reverse.mp hc2)
        · exact ih [] (by simp) w hw
    · rw [Bool.not_eq_true] at hsp
      simp [pySplitAux, hsp] at hw
      refine ih (c :: acc) ?_ w hw
      intro c2 hc2
      rcases List.mem_cons.mp hc2 with h | h
      · subst h; exact hsp
      · exact hacc c2 h

/-- `dropWhile` is the identity on a list with no character satisfying the
predicate. -/
theorem dropWhile_eq_self_of_none {p : Char → Bool} {l : List Char}
    (h : ∀ c ∈ l, p c = false) : l.dropWhile p = l := by
  cases l with
  | nil => rfl
  | cons c cs => simp [List.dropWhile_cons, h c (List.mem_cons_self c cs)]

/-- `strip()` does not change a token that contains no whitespace. -/
theorem pyStrip_eq_self {w : String} (h : ∀ c ∈ w.toList, pyIsSpace c = false) :
    pyStrip w = w := by
  unfold pyStrip
  rw [dropWhile_eq_self_of_none h,
      dropWhile_eq_self_of_none (by intro c hc; exact h c (List.mem_reverse.mp hc)),
      List.reverse_reverse]
  rfl

/-- The `if word.strip()` filter in `calculate_word_count` keeps every token
of `text.split()`. -/
theorem filter_strip_eq (s : String) :
    (pySplit s).filter (fun w => !(pyStrip w).isEmpty) = pySplit s := by
  apply List.filter_eq_self.mpr
  intro w hw
  have htok := pySplitAux_tokens s.toList [] (by simp) w hw
  rw [pyStrip_eq_self htok.2]
  have hne : w ≠ "" := by
    intro he
    apply htok.1
    rw [he]
    rfl
  simp only [Bool.not_eq_true']
  rw [← Bool.not_eq_true]
  intro hemp
  exact hne ((String.isEmpty_iff w).mp hemp)

/-- On every string, the word counter returns the number of tokens of
`text.split()`. -/
theorem calculate_word_count_str (s : String) :
    calculate_word_count (.str s) = .ok ((pySplit s).length) := by
  by_cases he : s.isEmpty = true
  · have hs : s = "" := (String.isEmpty_iff s).mp he
    subst hs
    rfl
  · rw [Bool.not_eq_true] at he
    simp [calculate_word_count, pyFalsy, he, filter_strip_eq]

/-! ## Lemmas about dict operations -/

/-- After `d[k] = v`, looking up `k` yields `v`. -/
theorem dictFind?_dictSet_self (d : List (String × JVal)) (k : String) (v : JVal) :
    dictFind? (dictSet d k v) k = some v := by
  induction d with
  | nil => simp [dictSet, dictFind?]
  | cons e rest ih =>
    obtain ⟨k0, v0⟩ := e
    by_cases h : k0 = k
    · subst h
      simp [dictSet, dictFind?]
    · simp [dictSet, dictFind?, h, ih]

/-- After `d[k] = v`, looking up any other key is unchanged (value and
presence alike). -/
theorem dictFind?_dictSet_ne (d : List (String × JVal)) (k k2 : String) (v : JVal)
    (h : k2 ≠ k) : dictFind? (dictSet d k v) k2 = dictFind? d k2 := by
  have hf : (k == k2) = false := beq_eq_false_iff_ne.mpr (fun he => h he.symm)
  induction d with
  | nil => simp [dictSet, dictFind?, hf]
  | cons e rest ih =>
    obtain ⟨k0, v0⟩ := e
    by_cases h0 : k0 = k
    · subst h0
      simp [dictSet, dictFind?, hf]
    · simp [dictSet, dictFind?, h0, ih]

/-- Setting the same key to the same value twice is the same as setting it
once. -/
theorem dictSet_dictSet_same (d : List (String × JVal)) (k : String) (v : JVal) :
    dictSet (dictSet d k v) k v = dictSet d k v := by
  induction d with
  | nil => simp [dictSet]
  | cons e rest ih =>
    obtain ⟨k0, v0⟩ := e
    by_cases h : k0 = k
    · subst h
      simp [dictSet]
    · simp [dictSet, h, ih]

/-- Lookup via `d.get(k2)` is unchanged by `d[k] = v` for `k2 ≠ k`. -/
theorem dictGet_dictSet_ne (d : List (String × JVal)) (k k2 : String) (v : JVal)
    (h : k2 ≠ k) : dictGet (dictSet d k v) k2 = dictGet d k2 := by
  unfold dictGet
  rw [dictFind?_dictSet_ne d k k2 v h]

/-! ## Lemmas about the augmentation loop -/

/-- Unfolding `augmentData` on a non-dict head element. -/
theorem augmentData_cons_nonobj (v : JVal) (rest : List JVal) (hv : isObj v = false) :
    augmentData (v :: rest) =
      match augmentData rest with
      | .error e => .error e
      | .ok (vs, c) => .ok (v :: vs, c) := by
  cases v
  case obj d => simp [isObj] at hv
  all_goals rfl

/-- Augmenting one review is idempotent: the second pass re-derives the same
count from the unchanged `text` field and overwrites `wordCount` with the
value it already has. -/
theorem augmentReview_idem (d d2 : List (String × JVal))
    (h : augmentReview d = .ok d2) : augmentReview d2 = .ok d2 := by
  unfold augmentReview at h ⊢
  cases hc : calculate_word_count (dictGet d "text") with
  | error e => rw [hc] at h; exact absurd h (by simp)
  | ok n =>
    rw [hc] at h
    simp only [Except.ok.injEq] at h
    subst h
    rw [dictGet_dictSet_ne d "wordCount" "text" (.num (n : Int)) (by decide), hc]
    simp [dictSet_dictSet_same]

/-- The whole augmentation pass is idempotent: a second run reproduces both
the transformed list and the update tally. -/
theorem augmentData_idem (xs : List JVal) : ∀ ys c,
    augmentData xs = .ok (ys, c) → augmentData ys = .ok (ys, c) := by
  induction xs with
  | nil =>
    intro ys c h
    simp only [augmentData, Except.ok.injEq, Prod.mk.injEq] at h
    rw [← h.1, ← h.2]
    rfl
  | cons v rest ih =>
    intro ys c h
    cases hv : isObj v with
    | true =>
      cases v <;> simp [isObj] at hv
      case obj d =>
      simp only [augmentData] at h
      cases hA : augmentReview d with
      | error e => rw [hA] at h; exact absurd h (by simp)
      | ok d2 =>
        rw [hA] at h
        cases hR : augmentData rest with
        | error e => rw [hR] at h; exact absurd h (by simp)
        | ok p =>
          obtain ⟨vs, c0⟩ := p
          rw [hR] at h
          simp only [Except.ok.injEq, Prod.mk.injEq] at h
          obtain ⟨hys, hc⟩ := h
          subst hys
          subst hc
          simp only [augmentData, augmentReview_idem d d2 hA, ih vs c0 hR]
    | false =>
      rw [augmentData_cons_nonobj v rest hv] at h
      cases hR : augmentData rest with
      | error e => rw [hR] at h; exact absurd h (by simp)
      | ok p =>
        obtain ⟨vs, c0⟩ := p
        rw [hR] at h
        simp only [Except.ok.injEq, Prod.mk.injEq] at h
        obtain ⟨hys, hc⟩ := h
        subst hys
        subst hc
        rw [augmentData_cons_nonobj v vs hv, ih vs c0 hR]

/-- Inversion for a successful `augmentReview`: the word counter succeeded
on the `text` field and `wordCount` was set to its result. -/
theorem augmentReview_ok_spec (d d2 : List (String × JVal))
    (h : augmentReview d = .ok d2) :
    ∃ n : Nat, calculate_word_count (dictGet d "text") = .ok n ∧
      d2 = dictSet d "wordCount" (.num (n : Int)) := by
  unfold augmentReview at h
  cases hc : calculate_word_count (dictGet d "text") with
  | error e => rw [hc] at h; exact absurd h (by simp)
  | ok n =>
    rw [hc] at h
    simp only [Except.ok.injEq] at h
    exact ⟨n, rfl, h.symm⟩

/-- Inversion for a successful `augmentData` on a dict head element. -/
theorem augmentData_cons_obj_ok (d : List (String × JVal)) (rest ys : List JVal) (c : Nat) :
    augmentData (.obj d :: rest) = .ok (ys, c) ↔
    ∃ d2 vs c0, augmentReview d = .ok d2 ∧ augmentData rest = .ok (vs, c0) ∧
      ys = .obj d2 :: vs ∧ c = c0 + 1 := by
  constructor
  · intro h
    simp only [augmentData] at h
    cases hA : augmentReview d with
    | error e => rw [hA] at h; exact absurd h (by simp)
    | ok d2 =>
      rw [hA] at h
      cases hR : augmentData rest with
      | error e => rw [hR] at h; exact absurd h (by simp)
      | ok p =>
        obtain ⟨vs, c0⟩ := p
        rw [hR] at h
        simp only [Except.ok.injEq, Prod.mk.injEq] at h
        exact ⟨d2, vs, c0, rfl, rfl, h.1.symm, h.2.symm⟩
  · rintro ⟨d2, vs, c0, hA, hR, rfl, rfl⟩
    simp only [augmentData, hA, hR]

/-- Inversion for a successful `augmentData` on a non-dict head element. -/
theorem augmentData_cons_nonobj_ok (v : JVal) (rest ys : List JVal) (c : Nat)
    (hv : isObj v = false) :
    augmentData (v :: rest) = .ok (ys, c) ↔
    ∃ vs, augmentData rest = .ok (vs, c) ∧ ys = v :: vs := by
  rw [augmentData_cons_nonobj v rest hv]
  constructor
  · intro h
    cases hR : augmentData rest with
    | error e => rw [hR] at h; exact absurd h (by simp)
    | ok p =>
      obtain ⟨vs, c0⟩ := p
      rw [hR] at h
      simp only [Except.ok.injEq, Prod.mk.injEq] at h
      obtain ⟨h1, h2⟩ := h
      subst h2
      exact ⟨vs, rfl, h1.symm⟩
  · rintro ⟨vs, hR, rfl⟩
    simp only [hR]

/-- A successful augmentation pass preserves the length of the array. -/
theorem augmentData_length (xs : List JVal) : ∀ ys c,
    augmentData xs = .ok (ys, c) → ys.length = xs.length := by
  induction xs with
  | nil =>
    intro ys c h
    simp only [augmentData, Except.ok.injEq, Prod.mk.injEq] at h
    rw [← h.1]
  | cons v rest ih =>
    intro ys c h
    cases hv : isObj v with
    | true =>
      cases v <;> simp [isObj] at hv
      case obj d =>
      obtain ⟨d2, vs, c0, hA, hR, rfl, rfl⟩ := (augmentData_cons_obj_ok d rest ys c).mp h
      simp [ih vs c0 hR]
    | false =>
      obtain ⟨vs, hR, rfl⟩ := (augmentData_cons_nonobj_ok v rest ys c hv).mp h
      simp [ih vs c hR]

/-- The update tally of a successful augmentation pass is exactly the number
of dict elements of the array. -/
theorem augmentData_count (xs : List JVal) : ∀ ys c,
    augmentData xs = .ok (ys, c) → c = xs.countP isObj := by
  induction xs with
  | nil =>
    intro ys c h
    simp only [augmentData, Except.ok.injEq, Prod.mk.injEq] at h
    rw [← h.2]
    rfl
  | cons v rest ih =>
    intro ys c h
    cases hv : isObj v with
    | true =>
      cases v <;> simp [isObj] at hv
      case obj d =>
      obtain ⟨d2, vs, c0, hA, hR, rfl, rfl⟩ := (augmentData_cons_obj_ok d rest ys c).mp h
      simp [List.countP_cons, isObj, ih vs c0 hR]
    | false =>
      obtain ⟨vs, hR, rfl⟩ := (augmentData_cons_nonobj_ok v rest ys c hv).mp h
      simp [List.countP_cons, hv, ih vs c hR]

/-- A successful augmentation pass leaves every non-dict position exactly
as it was. -/
theorem augmentData_getElem?_nonobj (xs : List JVal) : ∀ ys c,
    augmentData xs = .ok (ys, c) →
    ∀ i : Nat, (∀ d, xs[i]? ≠ some (JVal.obj d)) → ys[i]? = xs[i]? := by
  induction xs with
  | nil =>
    intro ys c h i _
    simp only [augmentData, Except.ok.injEq, Prod.mk.injEq] at h
    rw [← h.1]
  | cons v rest ih =>
    intro ys c h i hobj
    cases hv : isObj v with
    | true =>
      cases v <;> simp [isObj] at hv
      case obj d =>
      obtain ⟨d2, vs, c0, hA, hR, rfl, rfl⟩ := (augmentData_cons_obj_ok d rest ys c).mp h
      cases i with
      | zero =>
        exact absurd (List.getElem?_cons_zero) (hobj d)
      | succ j =>
        rw [List.getElem?_cons_succ, List.getElem?_cons_succ]
        exact ih vs c0 hR j (fun d3 hd3 => hobj d3 (by rw [List.getElem?_cons_succ]; exact hd3))
    | false =>
      obtain ⟨vs, hR, rfl⟩ := (augmentData_cons_nonobj_ok v rest ys c hv).mp h
      cases i with
      | zero =>
        rw [List.getElem?_cons_zero, List.getElem?_cons_zero]
      | succ j =>
        rw [List.getElem?_cons_succ, List.getElem?_cons_succ]
        exact ih vs c hR j (fun d3 hd3 => hobj d3 (by rw [List.getElem?_cons_succ]; exact hd3))

/-- A successful augmentation pass rewrites every dict position to the
augmented dict, with the count re-derived from its `text` field. -/
theorem augmentData_getElem?_obj (xs : List JVal) : ∀ ys c,
    augmentData xs = .ok (ys, c) →
    ∀ i : Nat, ∀ d, xs[i]? = some (JVal.obj d) →
      ∃ n : Nat, calculate_word_count (dictGet d "text") = .ok n ∧
        ys[i]? = some (JVal.obj (dictSet d "wordCount" (.num (n : Int)))) := by
  induction xs with
  | nil =>
    intro ys c h i d hd
    simp at hd
  | cons v rest ih =>
    intro ys c h i d hd
    cases hv : isObj v with
    | true =>
      cases v <;> simp [isObj] at hv
      case obj d0 =>
      obtain ⟨d2, vs, c0, hA, hR, rfl, rfl⟩ := (augmentData_cons_obj_ok d0 rest ys c).mp h
      cases i with
      | zero =>
        rw [List.getElem?_cons_zero] at hd
        simp only [Option.some.injEq, JVal.obj.injEq] at hd
        subst hd
        obtain ⟨n, hc, rfl⟩ := augmentReview_ok_spec d0 d2 hA
        exact ⟨n, hc, List.getElem?_cons_zero⟩
      | succ j =>
        rw [List.getElem?_cons_succ] at hd
        rw [List.getElem?_cons_succ]
        exact ih vs c0 hR j d hd
    | false =>
      obtain ⟨vs, hR, rfl⟩ := (augmentData_cons_nonobj_ok v rest ys c hv).mp h
      cases i with
      | zero =>
        rw [List.getElem?_cons_zero] at hd
        simp only [Option.some.injEq] at hd
        rw [hd] at hv
        simp [isObj] at hv
      | succ j =>
        rw [List.getElem?_cons_succ] at hd
        rw [List.getElem?_cons_succ]
        exact ih vs c hR j d hd

/-- Every dict element of a successfully augmented array carries a
`wordCount` field holding a non-negative integer. -/
theorem augmentData_mem_obj (xs : List JVal) : ∀ ys c,
    augmentData xs = .ok (ys, c) →
    ∀ d2, JVal.obj d2 ∈ ys →
      ∃ n : Nat, dictFind? d2 "wordCount" = some (.num (n : Int)) := by
  induction xs with
  | nil =>
    intro ys c h d2 hmem
    simp only [augmentData, Except.ok.injEq, Prod.mk.injEq] at h
    rw [← h.1] at hmem
    simp at hmem
  | cons v rest ih =>
    intro ys c h d2 hmem
    cases hv : isObj v with
    | true =>
      cases v <;> simp [isObj] at hv
      case obj d =>
      obtain ⟨dd, vs, c0, hA, hR, rfl, rfl⟩ := (augmentData_cons_obj_ok d rest ys c).mp h
      rcases List.mem_cons.mp hmem with he | hm
      · simp only [JVal.obj.injEq] at he
        obtain ⟨n, hc, hdd⟩ := augmentReview_ok_spec d dd hA
        refine ⟨n, ?_⟩
        rw [he, hdd]
        exact dictFind?_dictSet_self d "wordCount" (.num (n : Int))
      · exact ih vs c0 hR d2 hm
    | false =>
      obtain ⟨vs, hR, rfl⟩ := (augmentData_cons_nonobj_ok v rest ys c hv).mp h
      rcases List.mem_cons.mp hmem with he | hm
      · rw [← he] at hv
        simp [isObj] at hv
      · exact ih vs c hR d2 hm

/-! ## The claims -/

/-- Claim C1, counterexample: the number `1` (a truthy non-string,
non-null value) does not yield 0 — `text.split()` raises `AttributeError`,
so the Word Counter does have a failure mode. -/
theorem calc_word_count_counterexample :
    calculate_word_count (JVal.num 1) =
      .error "AttributeError: object has no attribute split" ∧
    ∀ n : Nat, calculate_word_count (JVal.num 1) ≠ .ok n := by
  refine ⟨rfl, ?_⟩
  intro n h
  simp [calculate_word_count, pyFalsy] at h

/-- Claim C1, amended: the Word Counter never raises on a falsy input
(absent, null, empty string, `0`, `false`, empty array/object), yielding 0;
on any string it yields the token count of `text.split()`; but on a truthy
non-string input it raises an `AttributeError` (caught upstream at the
per-file boundary) instead of returning. -/
theorem calc_word_count_amended (v : JVal) :
    (pyFalsy v = true → calculate_word_count v = .ok 0) ∧
    (∀ s, v = JVal.str s → calculate_word_count v = .ok ((pySplit s).length)) ∧
    (pyFalsy v = false → (∀ s, v ≠ JVal.str s) →
      calculate_word_count v =
        .error "AttributeError: object has no attribute split") := by
  refine ⟨?_, ?_, ?_⟩
  · intro h
    simp [calculate_word_count, h]
  · rintro s rfl
    exact calculate_word_count_str s
  · intro hf hs
    cases v with
    | str s => exact absurd rfl (hs s)
    | null => simp [pyFalsy] at hf
    | bool b => cases b <;> simp_all [pyFalsy, calculate_word_count]
    | num n => simp_all [pyFalsy, calculate_word_count]
    | arr xs => simp_all [pyFalsy, calculate_word_count]
    | obj fs => simp_all [pyFalsy, calculate_word_count]

/-- Witness for C1 amended, at the falsy input `0`, the string `"hi"`, and
the truthy non-string `1`. -/
theorem calc_word_count_amended_witness :
    calculate_word_count (JVal.num 0) = .ok 0 ∧
    calculate_word_count (JVal.str "hi") = .ok ((pySplit "hi").length) ∧
    calculate_word_count (JVal.num 1) =
      .error "AttributeError: object has no attribute split" :=
  ⟨(calc_word_count_amended (JVal.num 0)).1 rfl,
   (calc_word_count_amended (JVal.str "hi")).2.1 "hi" rfl,
   (calc_word_count_amended (JVal.num 1)).2.2 rfl
     (fun s h => JVal.noConfusion h)⟩

/-- Claim C3: for every string the word counter returns the number of
whitespace-run-delimited non-empty tokens (`text.split()`); concretely,
`"one two three"` gives 3, `""` gives 0, `null`/missing (modelled as
`.null`, since `review.get("text")` yields `None` either way) gives 0,
a whitespace-only string gives 0, and `"a   b\tc\n d"` gives 4. -/
theorem calc_word_count_str_spec :
    (∀ s : String, calculate_word_count (.str s) = .ok ((pySplit s).length)) ∧
    calculate_word_count (.str "one two three") = .ok 3 ∧
    calculate_word_count (.str "") = .ok 0 ∧
    calculate_word_count JVal.null = .ok 0 ∧
    calculate_word_count (.str " \t\n  ") = .ok 0 ∧
    calculate_word_count (.str "a   b\tc\n d") = .ok 4 :=
  ⟨calculate_word_count_str, rfl, rfl, rfl, rfl, rfl⟩

/-- Claim C4: augmenting a record (when the word counter succeeds, which is
the only case in which the loop proceeds) preserves every field other than
`wordCount` verbatim — same values, same presence/absence — and adds or
overwrites `wordCount` with a non-negative integer. -/
theorem augment_record_frame (d d2 : List (String × JVal))
    (h : augmentReview d = .ok d2) :
    (∀ k, k ≠ "wordCount" → dictFind? d2 k = dictFind? d k) ∧
    ∃ n : Int, 0 ≤ n ∧ dictFind? d2 "wordCount" = some (.num n) := by
  obtain ⟨n, hc, rfl⟩ := augmentReview_ok_spec d d2 h
  refine ⟨?_, (n : Int), Int.ofNat_nonneg n, ?_⟩
  · intro k hk
    exact dictFind?_dictSet_ne d "wordCount" k (.num (n : Int)) hk
  · exact dictFind?_dictSet_self d "wordCount" (.num (n : Int))

/-- Witness for C4 at a record with a `text` field, a stale `wordCount`,
and an extra field: the augmented record keeps `text` and `extra` verbatim
and overwrites `wordCount` in place. -/
theorem augment_record_frame_witness :
    (∀ k, k ≠ "wordCount" →
      dictFind? [("text", .str "a b"), ("wordCount", .num 2), ("extra", .bool true)] k =
      dictFind? [("text", .str "a b"), ("wordCount", .num 7), ("extra", .bool true)] k) ∧
    ∃ n : Int, 0 ≤ n ∧
      dictFind? [("text", .str "a b"), ("wordCount", .num 2), ("extra", .bool true)]
        "wordCount" = some (.num n) :=
  augment_record_frame
    [("text", .str "a b"), ("wordCount", .num 7), ("extra", .bool true)]
    [("text", .str "a b"), ("wordCount", .num 2), ("extra", .bool true)] rfl

/-- Claim C5: the augmentation pass is idempotent — a second run re-derives
every `wordCount` from the unchanged `text` field and reproduces the same
list (hence the same `wordCount` values) and the same tally. -/
theorem augment_idempotent (xs ys : List JVal) (c : Nat)
    (h : augmentData xs = .ok (ys, c)) : augmentData ys = .ok (ys, c) :=
  augmentData_idem xs ys c h

/-- Witness for C5 at a two-element array. -/
theorem augment_idempotent_witness :
    augmentData [ .obj [("text", .str "a b"), ("wordCount", .num 2)], .str "x" ]
      = .ok ([ .obj [("text", .str "a b"), ("wordCount", .num 2)], .str "x" ], 1) :=
  augment_idempotent [ .obj [("text", .str "a b")], .str "x" ]
    [ .obj [("text", .str "a b"), ("wordCount", .num 2)], .str "x" ] 1 rfl

/-- Claim C2, counterexample: an I/O failure during the write itself leaves
a truncated partial file.  `open(file_path, "w")` truncates at once and
`json.dump` streams the encoding, so for a file `"[1]"` whose decode
succeeds, a write failure after 1 character leaves `"["` on disk — the call
returns failure but the file is NOT byte-for-byte unchanged. -/
theorem process_partial_write_counterexample :
    process_reviews_file "[1]" (.ok (.arr [.num 1])) (.failAfter 1) =
      ⟨false, "[", true, none⟩ ∧
    ("[" : String) ≠ "[1]" := by
  constructor
  · simp [process_reviews_file, augmentData, encodeJson, encodeVal, encodeItems, pad, strTake]
  · decide

/-- Claim C2, amended: processing is all-or-nothing for every failure that
occurs before the file is opened for writing — whenever the file is not
opened for writing the call reports failure and the on-disk content is
byte-for-byte unchanged; the file is opened for writing exactly when the
content was decoded, the top level was an array, the augmentation raised
nothing, and the open itself succeeded; in particular a JSON-object top
level always leaves the file unchanged and reports failure.  (Only a
failure during the write itself can leave a partial file.) -/
theorem process_file_atomic_amended (file : String) (r : ReadOutcome) (w : WriteOutcome) :
    ((process_reviews_file file r w).wrote = false →
      (process_reviews_file file r w).content = file ∧
      (process_reviews_file file r w).success = false) ∧
    ((process_reviews_file file r w).wrote = true ↔
      (∃ xs ys c, r = .ok (.arr xs) ∧ augmentData xs = .ok (ys, c) ∧
        ∀ e, w ≠ .openFail e)) ∧
    (∀ d, r = .ok (.obj d) →
      process_reviews_file file r w = ⟨false, file, false, none⟩) := by
  cases r with
  | ioError e =>
    refine ⟨fun _ => ⟨rfl, rfl⟩, ?_, fun d hd => by cases hd⟩
    simp only [process_reviews_file]
    constructor
    · intro h
      cases h
    · rintro ⟨xs, ys, c, hr, -, -⟩
      cases hr
  | decodeError e =>
    refine ⟨fun _ => ⟨rfl, rfl⟩, ?_, fun d hd => by cases hd⟩
    simp only [process_reviews_file]
    constructor
    · intro h
      cases h
    · rintro ⟨xs, ys, c, hr, -, -⟩
      cases hr
  | ok v =>
    cases v with
    | arr xs =>
      cases hA : augmentData xs with
      | error e =>
        refine ⟨fun _ => ⟨?_, ?_⟩, ?_, fun d hd => by cases hd⟩
        · simp [process_reviews_file, hA]
        · simp [process_reviews_file, hA]
        · constructor
          · intro h
            simp [process_reviews_file, hA] at h
          · rintro ⟨xs2, ys, c, hr, hA2, -⟩
            injection hr with hv
            injection hv with hxs
            subst hxs
            rw [hA] at hA2
            cases hA2
      | ok p =>
        obtain ⟨ys, c⟩ := p
        cases w with
        | ok =>
          refine ⟨?_, ?_, fun d hd => by cases hd⟩
          · intro h
            simp [process_reviews_file, hA] at h
          · constructor
            · intro _
              exact ⟨xs, ys, c, rfl, hA, fun e h => by cases h⟩
            · intro _
              simp [process_reviews_file, hA]
        | openFail e =>
          refine ⟨fun _ => ?_, ?_, fun d hd => by cases hd⟩
          · constructor
            · simp [process_reviews_file, hA]
            · simp [process_reviews_file, hA]
          · constructor
            · intro h
              simp [process_reviews_file, hA] at h
            · rintro ⟨xs2, ys2, c2, -, -, hw⟩
              exact absurd rfl (hw e)
        | failAfter k =>
          refine ⟨?_, ?_, fun d hd => by cases hd⟩
          · intro h
            simp [process_reviews_file, hA] at h
          · constructor
            · intro _
              exact ⟨xs, ys, c, rfl, hA, fun e h => by cases h⟩
            · intro _
              simp [process_reviews_file, hA]
    | null =>
      refine ⟨fun _ => ⟨rfl, rfl⟩, ?_, fun d hd => by simp at hd⟩
      constructor
      · intro h
        simp [process_reviews_file] at h
      · rintro ⟨xs, ys, c, hr, -, -⟩
        simp at hr
    | bool b =>
      refine ⟨fun _ => ⟨rfl, rfl⟩, ?_, fun d hd => by simp at hd⟩
      constructor
      · intro h
        simp [process_reviews_file] at h
      · rintro ⟨xs, ys, c, hr, -, -⟩
        simp at hr
    | num n =>
      refine ⟨fun _ => ⟨rfl, rfl⟩, ?_, fun d hd => by simp at hd⟩
      constructor
      · intro h
        simp [process_reviews_file] at h
      · rintro ⟨xs, ys, c, hr, -, -⟩
        simp at hr
    | str st =>
      refine ⟨fun _ => ⟨rfl, rfl⟩, ?_, fun d hd => by simp at hd⟩
      constructor
      · intro h
        simp [process_reviews_file] at h
      · rintro ⟨xs, ys, c, hr, -, -⟩
        simp at hr
    | obj d0 =>
      refine ⟨fun _ => ⟨rfl, rfl⟩, ?_, fun d hd => rfl⟩
      constructor
      · intro h
        simp [process_reviews_file] at h
      · rintro ⟨xs, ys, c, hr, -, -⟩
        simp at hr

/-- Witness for C2 amended: a decode failure leaves the file untouched and
unsuccessful; a JSON-object top level gives the untouched-failure result;
a clean run on an array does open the file for writing. -/
theorem process_file_atomic_amended_witness :
    ((process_reviews_file "x" (.decodeError "bad") .ok).content = "x" ∧
     (process_reviews_file "x" (.decodeError "bad") .ok).success = false) ∧
    process_reviews_file "x" (.ok (.obj [])) .ok = ⟨false, "x", false, none⟩ ∧
    (process_reviews_file "x" (.ok (.arr [])) .ok).wrote = true :=
  ⟨(process_file_atomic_amended "x" (.decodeError "bad") .ok).1 rfl,
   (process_file_atomic_amended "x" (.ok (.obj [])) .ok).2.2 [] rfl,
   (process_file_atomic_amended "x" (.ok (.arr [])) .ok).2.1.mpr
     ⟨[], [], 0, rfl, rfl, fun e h => by cases h⟩⟩

/-- Claim C6: non-dict array elements are skipped but kept.  Concretely, on
`[{"text":"a b"}, "not-an-object", {"text":"c"}]` the output keeps all 3
elements, the dicts gain `wordCount` 2 and 1, the bare string is unchanged
and the update tally is 2.  In general a successful pass preserves length,
leaves every non-dict position untouched, and tallies exactly the dict
elements. -/
theorem nonobj_passthrough :
    (augmentData [ .obj [("text", .str "a b")], .str "not-an-object",
                   .obj [("text", .str "c")] ]
      = .ok ([ .obj [("text", .str "a b"), ("wordCount", .num 2)],
               .str "not-an-object",
               .obj [("text", .str "c"), ("wordCount", .num 1)] ], 2)) ∧
    (∀ xs ys c, augmentData xs = .ok (ys, c) →
      ys.length = xs.length ∧
      c = xs.countP isObj ∧
      ∀ i : Nat, (∀ d, xs[i]? ≠ some (JVal.obj d)) → ys[i]? = xs[i]?) :=
  ⟨rfl, fun xs ys c h =>
    ⟨augmentData_length xs ys c h, augmentData_count xs ys c h,
     augmentData_getElem?_nonobj xs ys c h⟩⟩

/-- Witness for C6, instantiating the general part on the concrete
three-element array at the non-dict position 1. -/
theorem nonobj_passthrough_witness :
    ([ JVal.obj [("text", .str "a b"), ("wordCount", .num 2)],
       JVal.str "not-an-object",
       JVal.obj [("text", .str "c"), ("wordCount", .num 1)] ].length =
     [ JVal.obj [("text", .str "a b")], JVal.str "not-an-object",
       JVal.obj [("text", .str "c")] ].length) ∧
    ((2 : Nat) = [ JVal.obj [("text", .str "a b")], JVal.str "not-an-object",
       JVal.obj [("text", .str "c")] ].countP isObj) ∧
    ∀ i : Nat,
      (∀ d, [ JVal.obj [("text", .str "a b")], JVal.str "not-an-object",
              JVal.obj [("text", .str "c")] ][i]? ≠ some (JVal.obj d)) →
      [ JVal.obj [("text", .str "a b"), ("wordCount", .num 2)],
        JVal.str "not-an-object",
        JVal.obj [("text", .str "c"), ("wordCount", .num 1)] ][i]? =
      [ JVal.obj [("text", .str "a b")], JVal.str "not-an-object",
        JVal.obj [("text", .str "c")] ][i]? :=
  nonobj_passthrough.2
    [ .obj [("text", .str "a b")], .str "not-an-object", .obj [("text", .str "c")] ]
    [ .obj [("text", .str "a b"), ("wordCount", .num 2)], .str "not-an-object",
      .obj [("text", .str "c"), ("wordCount", .num 1)] ] 2 rfl

/-- Claim C7: the File Locator returns exactly the entries directly inside
the directory whose name starts with `Reviews` and ends with `.json`
(case-sensitively), each prefixed by the directory and sorted
lexicographically by full path; a missing directory or an absence of
matches yields the empty sequence with no error. -/
theorem find_reviews_files_spec :
    (∀ d, find_reviews_files none d = []) ∧
    (∀ d names, names.filter matchesReviewsPattern = [] →
      find_reviews_files (some names) d = []) ∧
    (∀ d names, List.Sorted (· ≤ ·) (find_reviews_files (some names) d)) ∧
    (∀ d names, (find_reviews_files (some names) d).Perm
        ((names.filter matchesReviewsPattern).map (fun n => d ++ "/" ++ n))) ∧
    matchesReviewsPattern "Reviews1.json" = true ∧
    matchesReviewsPattern "reviews1.json" = false ∧
    matchesReviewsPattern "Reviews1.JSON" = false ∧
    matchesReviewsPattern "Reviews.json" = true ∧
    matchesReviewsPattern "XReviews1.json" = false := by
  refine ⟨fun d => rfl, ?_, ?_, ?_, ?_, ?_, ?_, ?_, ?_⟩
  · intro d names h
    simp [find_reviews_files, h]
  · intro d names
    exact List.sorted_insertionSort _ _
  · intro d names
    exact List.perm_insertionSort _ _
  · decide
  · decide
  · decide
  · decide
  · decide

/-- Witness for C7: a directory whose only entry does not match yields no
files. -/
theorem find_reviews_files_spec_witness :
    find_reviews_files (some ["notes.txt"]) "data" = [] :=
  find_reviews_files_spec.2.1 "data" ["notes.txt"] rfl

/-- Claim C8: the Run Driver always terminates with exit code 0 (per-file
failures are contained inside `process_reviews_file` and `main` never calls
`sys.exit`), and when the File Locator returns no files it reports only the
no-files-found message, performs no filesystem writes, and still exits 0. -/
theorem main_exit_zero_no_files (argv : List String) (env : RunEnv) :
    (mainFn argv env).exitCode = 0 ∧
    (find_reviews_files env.listing (match argv with | a :: _ => a | [] => "data") = [] →
      (mainFn argv env).msgs =
        [Msg.noFilesFound (match argv with | a :: _ => a | [] => "data")] ∧
      (mainFn argv env).writes = 0 ∧
      (mainFn argv env).successes = 0) := by
  constructor
  · by_cases hf :
      (find_reviews_files env.listing (match argv with | a :: _ => a | [] => "data")).isEmpty
    · simp [mainFn, hf]
    · simp [mainFn, hf]
  · intro h
    simp [mainFn, h]

/-- Witness for C8 on the missing-directory environment with no
command-line argument. -/
theorem main_exit_zero_no_files_witness :
    (mainFn [] envNoDir).msgs = [Msg.noFilesFound "data"] ∧
    (mainFn [] envNoDir).writes = 0 ∧
    (mainFn [] envNoDir).successes = 0 :=
  (main_exit_zero_no_files [] envNoDir).2 rfl

/-- Claim C9: whenever `process_reviews_file` reports success, the file on
disk holds the re-encoding of an array in which every dict element carries
a `wordCount` field holding a non-negative integer. -/
theorem success_wordCount_invariant (file : String) (r : ReadOutcome) (w : WriteOutcome)
    (h : (process_reviews_file file r w).success = true) :
    ∃ ys : List JVal, (process_reviews_file file r w).content = encodeJson (.arr ys) ∧
      ∀ d, JVal.obj d ∈ ys →
        ∃ n : Int, 0 ≤ n ∧ dictFind? d "wordCount" = some (.num n) := by
  cases r with
  | ioError e => simp [process_reviews_file] at h
  | decodeError e => simp [process_reviews_file] at h
  | ok v =>
    cases v with
    | arr xs =>
      cases hA : augmentData xs with
      | error e => simp [process_reviews_file, hA] at h
      | ok p =>
        obtain ⟨ys, c⟩ := p
        cases w with
        | ok =>
          refine ⟨ys, by simp [process_reviews_file, hA], ?_⟩
          intro d hd
          obtain ⟨n, hn⟩ := augmentData_mem_obj xs ys c hA d hd
          exact ⟨(n : Int), Int.ofNat_nonneg n, hn⟩
        | openFail e => simp [process_reviews_file, hA] at h
        | failAfter k => simp [process_reviews_file, hA] at h
    | null => simp [process_reviews_file] at h
    | bool b => simp [process_reviews_file] at h
    | num n => simp [process_reviews_file] at h
    | str s2 => simp [process_reviews_file] at h
    | obj d => simp [process_reviews_file] at h

/-- Witness for C9 on a one-element array containing an empty dict. -/
theorem success_wordCount_invariant_witness :
    ∃ ys : List JVal,
      (process_reviews_file "x" (.ok (.arr [.obj []])) .ok).content =
        encodeJson (.arr ys) ∧
      ∀ d, JVal.obj d ∈ ys →
        ∃ n : Int, 0 ≤ n ∧ dictFind? d "wordCount" = some (.num n) :=
  success_wordCount_invariant "x" (.ok (.arr [.obj []])) .ok rfl

/-- Claim C10: an array needing zero updates (empty, or containing only
non-dict elements) still augments successfully with tally 0, is re-encoded
and rewritten to disk (so the byte content may change to the pretty-printed
form — e.g. `"[ ]"` becomes `"[]"`), is reported as a success with 0
updated reviews, and counts as a success in the final tally. -/
theorem zero_update_rewrite :
    (∀ xs : List JVal, (∀ v ∈ xs, isObj v = false) → augmentData xs = .ok (xs, 0)) ∧
    (∀ file, process_reviews_file file (.ok (.arr [])) .ok = ⟨true, "[]", true, some 0⟩) ∧
    (process_reviews_file "[ ]" (.ok (.arr [])) .ok).content ≠ "[ ]" ∧
    (mainFn [] envZero).successes = 1 ∧
    (mainFn [] envZero).total = 1 ∧
    (mainFn [] envZero).msgs =
      [Msg.foundFiles 1 ["data/Reviews1.json"],
       Msg.fileResult "data/Reviews1.json" true,
       Msg.finalTally 1 1] := by
  refine ⟨?_, ?_, ?_, rfl, rfl, rfl⟩
  · intro xs h
    induction xs with
    | nil => rfl
    | cons v rest ih =>
      have hv : isObj v = false := h v (List.mem_cons_self v rest)
      have hr : augmentData rest = .ok (rest, 0) :=
        ih (fun u hu => h u (List.mem_cons_of_mem v hu))
      rw [augmentData_cons_nonobj v rest hv, hr]
  · intro file
    simp [process_reviews_file, augmentData, encodeJson, encodeVal]
  · intro hc
    rw [show (process_reviews_file "[ ]" (.ok (.arr [])) .ok).content = "[]" by
      simp [process_reviews_file, augmentData, encodeJson, encodeVal]] at hc
    exact absurd hc (by decide)

/-- Witness for C10, instantiating the general zero-update part on a
one-element array holding a bare string. -/
theorem zero_update_rewrite_witness :
    augmentData [JVal.str "x"] = .ok ([JVal.str "x"], 0) :=
  zero_update_rewrite.1 [JVal.str "x"] (by simp [isObj])
